import Mathlib

/-!
Verification development for `emcee_specfit.py` (MCMC spectral-fitting script).

Numeric embedding conventions:
- Machine floating-point values are modelled as exact rationals (`ℚ`); every
  IEEE-754 double is an exact rational, and all arithmetic performed by the
  relevant code paths (+, -, *, /, **2, comparisons) is modelled exactly.
- Transcendental library routines that the code calls (`np.log`,
  `scipy.stats.norm.cdf`) are external collaborators; they are passed in as
  explicit function parameters (`log : ℚ → ℚ`, `cdf : ℚ → ℚ`) so that every
  definition stays executable.  Theorems that depend on analytic facts about
  these routines take those facts as hypotheses.
- Division by zero and logarithms of non-positive numbers do not exist in `ℚ`;
  where the distinction between a finite float and `inf`/`nan` matters (the
  finiteness claim about the likelihood), a dedicated IEEE-value type `FVal`
  tracks `-inf`, `+inf` and `nan` explicitly.
- The script runs on Python 2 with an old NumPy in which unary minus on a
  boolean array is elementwise logical NOT (the code relies on this both in
  `notul = -ul` and in `loerr,hierr = 1*-sign,1*sign`); the embedding
  translates `-mask` as elementwise negation accordingly.
-/

namespace EmceeSpecfit

/-- The shape of the per-point flux uncertainty in the observation dictionary:
`data['dflux']` is either a 1-D array (symmetric scalar errors) or a 2-D
array with two columns `(lo, hi)` (asymmetric errors), mirrored from how
`lnprobmodel` dispatches on `np.rank(data['dflux'])`. -/
inductive DFlux where
  | sym (v : List ℚ)
  | asym (v : List (ℚ × ℚ))
deriving DecidableEq

/-- The observation set `data` dictionary used throughout `emcee_specfit.py`:
index-aligned arrays `ene`, `dene`, `flux`, `dflux`, `ul` plus the scalar
confidence level `cl` shared by all upper limits. -/
structure Data where
  ene : List ℚ
  dene : List (ℚ × ℚ)
  flux : List ℚ
  dflux : DFlux
  ul : List Bool
  cl : ℚ
deriving DecidableEq

/-- NumPy boolean-mask indexing `xs[mask]`: keep the entries of `xs` at the
positions where `mask` is `True`. -/
def boolMask : List Bool → List α → List α
  | true :: ms, x :: xs => x :: boolMask ms xs
  | false :: ms, _ :: xs => boolMask ms xs
  | _, _ => []

/-- `np.sum(data['ul'])`: the number of upper-limit points. -/
def ulCount (d : Data) : ℕ :=
  d.ul.count true

/-- Line 68: `difference = model[notul]-data['flux'][notul]`, with
`notul = -ul` (elementwise NOT in the old NumPy this script targets). -/
def nonULdiffs (model : List ℚ) (d : Data) : List ℚ :=
  let notul := d.ul.map not
  List.zipWith (fun a b => a - b) (boolMask notul model) (boolMask notul d.flux)

/-- Line 72-73: `sign=difference>0; loerr,hierr=1*-sign,1*sign`, then the
per-point sigma `loerr*dflux[:,0]+hierr*dflux[:,1]`.  Under the old-NumPy
semantics `-sign` is elementwise NOT, so `loerr` is 1 exactly when the
difference is non-positive. -/
def sigmaSel (diff : ℚ) (e : ℚ × ℚ) : ℚ :=
  (if diff > 0 then 0 else 1) * e.1 + (if diff > 0 then 1 else 0) * e.2

/-- Lines 65-78 of `lnprobmodel`: the Gaussian (non-upper-limit) part
`totallogprob = np.sum(logprob)` where
`logprob = -difference**2/(2.*sigma**2)` with sigma chosen per the shape of
`data['dflux']`. -/
def totalGaussLogprob (model : List ℚ) (d : Data) : ℚ :=
  let notul := d.ul.map not
  let difference := nonULdiffs model d
  let logprob :=
    match d.dflux with
    | .asym v =>
        (difference.zip (boolMask notul v)).map
          (fun (q : ℚ × (ℚ × ℚ)) => -q.1 ^ 2 / (2 * (sigmaSel q.1 q.2) ^ 2))
    | .sym v =>
        (difference.zip (boolMask notul v)).map
          (fun (q : ℚ × ℚ) => -q.1 ^ 2 / (2 * q.2 ^ 2))
  logprob.sum

/-- Line 82: `violated_uls = np.sum(model[ul]>data['flux'][ul])`. -/
def violatedULs (model : List ℚ) (d : Data) : ℕ :=
  ((boolMask d.ul model).zip (boolMask d.ul d.flux)).countP (fun q => q.2 < q.1)

/-- `lnprobmodel(model,data)` (lines 63-85): Gaussian log-likelihood over the
non-upper-limit points, plus — only when the set contains upper-limit points —
`violated_uls * np.log(1.-data['cl'])`.  The float `np.log` routine is the
explicit parameter `log`. -/
def lnprobmodel (log : ℚ → ℚ) (model : List ℚ) (d : Data) : ℚ :=
  let totallogprob := totalGaussLogprob model d
  if 0 < ulCount d then
    totallogprob + (violatedULs model d : ℚ) * log (1 - d.cl)
  else
    totallogprob

/-- Spec-side sigma selection exactly as claim C1 states it: the lower-error
column when `difference > 0`, the upper-error column otherwise. -/
def specSigmaClaim (diff : ℚ) (e : ℚ × ℚ) : ℚ :=
  if diff > 0 then e.1 else e.2

/-- Sigma selection as the C1 amendment states it: the upper-error column when
`difference > 0`, the lower-error column otherwise (the convention the code
actually implements). -/
def specSigmaAmended (diff : ℚ) (e : ℚ × ℚ) : ℚ :=
  if diff > 0 then e.2 else e.1

/-- Modelled from the spec's words for comparison with the code (claim C1):
the contribution from non-upper-limit points is the sum over those points of
`-difference^2 / (2*sigma^2)`, where sigma is chosen by the supplied column
selector in the 2-column case and is the symmetric scalar otherwise. -/
def specNonULSum (sel : ℚ → (ℚ × ℚ) → ℚ) (model : List ℚ) (d : Data) : ℚ :=
  let notul := d.ul.map not
  let difference := nonULdiffs model d
  match d.dflux with
  | .asym v =>
      ((difference.zip (boolMask notul v)).map
        (fun (q : ℚ × (ℚ × ℚ)) => -q.1 ^ 2 / (2 * (sel q.1 q.2) ^ 2))).sum
  | .sym v =>
      ((difference.zip (boolMask notul v)).map
        (fun (q : ℚ × ℚ) => -q.1 ^ 2 / (2 * q.2 ^ 2))).sum

/-- IEEE-754 double values as relevant to this code: a finite value (exact
rational), the two infinities, or `nan`.  Rounding and overflow of finite
operations are not modelled (finite values behave exactly); what is tracked is
exactly how `inf`/`nan` arise and propagate through the operations the
likelihood uses: division by zero, `np.log` of non-positive arguments, and
arithmetic on non-finite values. -/
inductive FVal where
  | fin (x : ℚ)
  | pinf
  | ninf
  | nan
deriving DecidableEq

/-- IEEE negation. -/
def FVal.neg : FVal → FVal
  | fin x => fin (-x)
  | pinf => ninf
  | ninf => pinf
  | nan => nan

/-- IEEE addition (`inf + (-inf) = nan`, `nan` absorbing). -/
def FVal.add : FVal → FVal → FVal
  | fin x, fin y => fin (x + y)
  | fin _, pinf => pinf
  | fin _, ninf => ninf
  | pinf, fin _ => pinf
  | ninf, fin _ => ninf
  | pinf, pinf => pinf
  | ninf, ninf => ninf
  | pinf, ninf => nan
  | ninf, pinf => nan
  | _, _ => nan

/-- IEEE multiplication (`0 * inf = nan`, `nan` absorbing). -/
def FVal.mul : FVal → FVal → FVal
  | fin x, fin y => fin (x * y)
  | fin x, pinf => if 0 < x then pinf else if x < 0 then ninf else nan
  | fin x, ninf => if 0 < x then ninf else if x < 0 then pinf else nan
  | pinf, fin y => if 0 < y then pinf else if y < 0 then ninf else nan
  | ninf, fin y => if 0 < y then ninf else if y < 0 then pinf else nan
  | pinf, pinf => pinf
  | ninf, ninf => pinf
  | pinf, ninf => ninf
  | ninf, pinf => ninf
  | _, _ => nan

/-- IEEE division: finite/0 gives a signed infinity (0/0 gives `nan`),
finite/inf gives 0, inf/inf gives `nan`.  The divisor 0 is treated as +0
(NumPy float arithmetic on these code paths produces +0). -/
def FVal.div : FVal → FVal → FVal
  | fin x, fin y =>
      if y = 0 then (if 0 < x then pinf else if x < 0 then ninf else nan)
      else fin (x / y)
  | fin _, pinf => fin 0
  | fin _, ninf => fin 0
  | pinf, fin y => if 0 ≤ y then pinf else ninf
  | ninf, fin y => if 0 ≤ y then ninf else pinf
  | _, _ => nan

/-- IEEE `np.log`: `log 0 = -inf`, `log` of a negative value is `nan`; on
positive finite values it is the external float routine `lg`. -/
def FVal.flog (lg : ℚ → ℚ) : FVal → FVal
  | fin x => if 0 < x then fin (lg x) else if x = 0 then ninf else nan
  | pinf => pinf
  | ninf => nan
  | nan => nan

/-- `np.sum` over IEEE values (the empty sum is 0.0, as in NumPy). -/
def FVal.sumF (l : List FVal) : FVal :=
  l.foldl FVal.add (fin 0)

/-- Whether an IEEE value is finite (neither an infinity nor `nan`). -/
def FVal.isFin : FVal → Bool
  | fin _ => true
  | _ => false

/-- `lnprobmodel` re-traced at the IEEE-value level: identical structure to
`lnprobmodel`, with every arithmetic operation that can produce `inf`/`nan`
performed in `FVal`.  Used to settle the finiteness claim. -/
def lnprobmodelF (lg : ℚ → ℚ) (model : List ℚ) (d : Data) : FVal :=
  let notul := d.ul.map not
  let difference := nonULdiffs model d
  let logprob : List FVal :=
    match d.dflux with
    | .asym v =>
        (difference.zip (boolMask notul v)).map
          (fun (q : ℚ × (ℚ × ℚ)) =>
            FVal.div (FVal.neg (FVal.mul (.fin q.1) (.fin q.1)))
              (FVal.mul (.fin 2)
                (FVal.mul (.fin (sigmaSel q.1 q.2)) (.fin (sigmaSel q.1 q.2)))))
    | .sym v =>
        (difference.zip (boolMask notul v)).map
          (fun (q : ℚ × ℚ) =>
            FVal.div (FVal.neg (FVal.mul (.fin q.1) (.fin q.1)))
              (FVal.mul (.fin 2) (FVal.mul (.fin q.2) (.fin q.2))))
  let totallogprob := FVal.sumF logprob
  if 0 < ulCount d then
    FVal.add totallogprob
      (FVal.mul (.fin (violatedULs model d)) (FVal.flog lg (.fin (1 - d.cl))))
  else
    totallogprob

/-- The side condition under which the amended finiteness claim holds: every
per-point sigma actually used by a non-upper-limit point is nonzero, and when
upper-limit points are present the confidence level is below 1. -/
def finiteOKb (model : List ℚ) (d : Data) : Bool :=
  (match d.dflux with
   | .asym v =>
       ((nonULdiffs model d).zip (boolMask (d.ul.map not) v)).all
         (fun (q : ℚ × (ℚ × ℚ)) => decide (sigmaSel q.1 q.2 ≠ 0))
   | .sym v =>
       ((nonULdiffs model d).zip (boolMask (d.ul.map not) v)).all
         (fun (q : ℚ × ℚ) => decide (q.2 ≠ 0))) &&
  (decide (ulCount d = 0) || decide (d.cl < 1))

/-- The IEEE double closest to π, the value of `np.pi`. -/
def pi_f64 : ℚ := 884279719003555 / 281474976710656

/-- `normal_prior` (lines 58-59), exactly as the source has it:
`- 0.5 * (2 * np.pi * sigma) - (value - mean) ** 2 / (2. * sigma)`.
Note the divisor is `2 * sigma`, not `2 * sigma ** 2`, and the constant term
is `-0.5 * (2 * pi * sigma)` with no logarithm. -/
def normal_prior (value mean sigma : ℚ) : ℚ :=
  -(0.5) * (2 * pi_f64 * sigma) - (value - mean) ^ 2 / (2 * sigma)

/-- The default flat prior (line 45-46). -/
def flatprior (_pars : List ℚ) : ℚ := 0

/-- What a model evaluator may return (line 89-97): either a bare flux array,
or a tuple whose first element is the flux array and whose remaining elements
are extra blob payload; each payload element is a 2-row array, the shape
`calc_fit_CI` later consumes via `m[modelidx][0]` / `m[modelidx][1]`. -/
inductive ModelOut where
  | bare (flux : List ℚ)
  | tup (flux : List ℚ) (extra : List (List ℚ × List ℚ))
deriving DecidableEq

/-- `lnprob(pars,data,modelfunc,priorfunc)` (lines 87-109): evaluate the model,
normalize the blob (a synthesized `((ene, model),)` for a bare array, the
tuple tail for a tuple), and return total log-probability plus the blob.  The
progress `print` on line 107 is an external observability side effect and does
not affect the returned value. -/
def lnprob (log : ℚ → ℚ) (pars : List ℚ) (d : Data)
    (modelfunc : List ℚ → Data → ModelOut) (priorfunc : List ℚ → ℚ) :
    ℚ × List (List ℚ × List ℚ) :=
  match modelfunc pars d with
  | .bare model => (lnprobmodel log model d + priorfunc pars, [(d.ene, model)])
  | .tup model extra => (lnprobmodel log model d + priorfunc pars, extra)

/-- The module-level default initial guess `p00 = np.array((2,1e-11,10,1))`
(line 41). -/
def p00 : List ℚ := [2, 1e-11, 10, 1]

/-- `np.trapz(y, x)`: trapezoidal-rule integration of samples `y` over grid
`x`. -/
def trapz (y x : List ℚ) : ℚ :=
  (((List.zipWith (fun a b => a - b) (x.drop 1) x).zip
      (List.zipWith (fun a b => a + b) (y.drop 1) y)).map
    (fun (p : ℚ × ℚ) => p.1 * p.2 / 2)).sum

/-- `cutoffexp` (lines 18-39), the default model: a power law with exponential
cutoff.  The external float routines are explicit parameters: `gmean` for
`scipy.stats.gmean`, `powf x p` for the float power `x ** p`, `expf` for
`np.exp`.  It returns a bare flux array. -/
def cutoffexp (gmean : List ℚ → ℚ) (powf : ℚ → ℚ → ℚ) (expf : ℚ → ℚ)
    (pars : List ℚ) (d : Data) : ModelOut :=
  let x := d.ene
  let x0 := gmean x
  let gamma := pars.getD 0 0
  let N := pars.getD 1 0
  let ecut := pars.getD 2 0
  let beta := pars.getD 3 0
  .bare (x.map (fun xi => N * powf (xi / x0) (-gamma) * expf (-(powf (xi / ecut) beta))))

/-- `get_sampler` (lines 113-139) up to the hand-off to the external ensemble
sampler.  The `data==None` guard comes first and raises (modelled as
`Except.error`).  The guess branch evaluates `lnprob` once at `p0` and then
mutates the caller's array in place: `p0[1] *= np.trapz(...)/np.trapz(...)`;
the in-place mutation is modelled by state passing — the `.ok` payload is the
value of the caller's `p0` array (hence of the module-level `p00` when the
default argument is used) after the call.  The second component of the result
is the trace of parameter vectors at which `lnprob` was evaluated during
setup, so "no likelihood evaluation" is visible as an empty trace.  The
external `emcee.EnsembleSampler`, `sample_ball` and burn-in run consume the
returned array afterwards. -/
def get_sampler (log : ℚ → ℚ) (nwalkers nburn : ℕ) (guess : Bool) (p0 : List ℚ)
    (data : Option Data) (modelfunc : List ℚ → Data → ModelOut)
    (priorfunc : List ℚ → ℚ) (threads : ℕ) :
    Except Unit (List ℚ) × List (List ℚ) :=
  match data with
  | none => (.error (), [])
  | some d =>
      if guess then
        let blob := (lnprob log p0 d modelfunc priorfunc).2
        let ene := (blob.headD ([], [])).1
        let spec := (blob.headD ([], [])).2
        (.ok (p0.set 1 (p0.getD 1 0 * (trapz d.flux d.ene / trapz spec ene))), [p0])
      else
        (.ok p0, [])

/-- `np.sort` on a 1-D array of floats: the sorted permutation of the list
(insertion sort; every comparison sort of a linear order returns the same
list). -/
def sortQ (l : List ℚ) : List ℚ :=
  l.insertionSort (fun a b => a ≤ b)

/-- `model[:,i]`: the values of all ensemble curves at energy-grid index `i`. -/
def columnAt (model : List (List ℚ)) (i : ℕ) : List ℚ :=
  model.map (fun row => row.getD i 0)

/-- Lines 296-310 of `calc_fit_CI`, for one confidence level `conf` (in sigma
units): `fmin,fmax = norm.cdf(-conf), norm.cdf(conf)`, `nf = int(fr*nwalkers)`,
and for each energy-grid point the order statistic `np.sort(model[:,i])[nf]`.
The standard normal CDF is the external parameter `cdf`; for the fractions in
`[0,1)` produced by a CDF, Python's truncating `int()` is `Int.toNat ∘ floor`. -/
def bandPair (modelx : List ℚ) (model : List (List ℚ)) (cdf : ℚ → ℚ) (conf : ℚ) :
    List ℚ × List ℚ :=
  let nwalkers := model.length
  let fmin := cdf (-conf)
  let fmax := cdf conf
  let band := fun (fr : ℚ) =>
    let nf := (⌊fr * (nwalkers : ℚ)⌋).toNat
    (List.range modelx.length).map (fun i => (sortQ (columnAt model i)).getD nf 0)
  (band fmin, band fmax)

/-- Modelled from the spec's words (its nearest-rank, no-interpolation
quantile description) for comparison with the code in claim C7: the median of
a sample is the sorted sample's entry at index `⌊n/2⌋`. -/
def specMedianNR (l : List ℚ) : ℚ :=
  (sortQ l).getD (l.length / 2) 0

/-- `np.mean` of a 1-D array. -/
def meanQ (l : List ℚ) : ℚ :=
  l.sum / (l.length : ℚ)

/-- Line 312: `MAPp = [np.mean(dist) for dist in sampler.flatchain.T]` — the
per-parameter mean of the flattened chain. -/
def MAPpars (flatchain : List (List ℚ)) : List ℚ :=
  (List.range (flatchain.headD []).length).map
    (fun j => meanQ (flatchain.map (fun row => row.getD j 0)))

/-- `calc_fit_CI` (lines 282-321).  The sampler state is passed explicitly:
`blobs` is `sampler.blobs` indexed `[step][walker]`, `flatchain` the flattened
production chain, and `sampler.lnprobfn` is `lnprob` closed over the run's
data/model/prior (so those are parameters here).  Returns
`(modelx, CI, model_MAP)`; the diagnostic prints are external. -/
def calc_fit_CI (log : ℚ → ℚ) (blobs : List (List (List (List ℚ × List ℚ))))
    (flatchain : List (List ℚ)) (d : Data)
    (modelfunc : List ℚ → Data → ModelOut) (priorfunc : List ℚ → ℚ)
    (cdf : ℚ → ℚ) (modelidx : ℕ) (confs : List ℚ) (last_step : Bool) :
    List ℚ × List (List ℚ × List ℚ) × List ℚ :=
  let model : List (List ℚ) :=
    if last_step then
      (blobs.getLastD []).map (fun m => (m.getD modelidx ([], [])).2)
    else
      (blobs.map (fun step => step.map (fun m => (m.getD modelidx ([], [])).2))).flatten
  let modelx := (((blobs.getLastD []).headD []).getD modelidx ([], [])).1
  let CI := confs.map (fun conf => bandPair modelx model cdf conf)
  let MAPp := MAPpars flatchain
  let model_MAP := ((lnprob log MAPp d modelfunc priorfunc).2.getD modelidx ([], [])).2
  (modelx, CI, model_MAP)

/-- A fixed stand-in for the external `np.log` routine, used to instantiate
theorems at concrete inputs whose likelihood does not involve the logarithm. -/
def logW : ℚ → ℚ := fun q => q

/-- Concrete observation set for the C1 counterexample: a single
non-upper-limit point with asymmetric errors `(lo, hi) = (1, 2)`. -/
def dataC1 : Data :=
  { ene := [1], dene := [(1, 1)], flux := [1], dflux := .asym [(1, 2)],
    ul := [false], cl := 95 / 100 }

/-- Concrete observation set with zero upper-limit points (witnesses). -/
def dataC2 : Data :=
  { ene := [1, 2], dene := [(1, 1), (1, 1)], flux := [1, 2],
    dflux := .sym [1, 1], ul := [false, false], cl := 9 / 10 }

/-- C3 counterexample input: finite data whose single non-upper-limit point
has (finite) uncertainty 0, so the Gaussian term divides by zero. -/
def dataC3div : Data :=
  { ene := [1], dene := [], flux := [1], dflux := .sym [0],
    ul := [false], cl := 1 / 2 }

/-- C3 counterexample input: finite data with one violated upper limit and the
(finite) confidence level 1, so the upper-limit term takes `log 0`. -/
def dataC3cl : Data :=
  { ene := [1], dene := [], flux := [1], dflux := .sym [1],
    ul := [true], cl := 1 }

/-- Concrete observation set with both a Gaussian point and an upper-limit
point, satisfying the amended finiteness side condition (witness for C3). -/
def dataC3ok : Data :=
  { ene := [1, 2], dene := [], flux := [1, 1], dflux := .sym [1, 1],
    ul := [false, true], cl := 9 / 10 }

/-- Concrete tuple-returning model evaluator (witness for C4): the flux array
is the parameter vector itself and the extra payload is one fixed 2-row
array. -/
def modelTupW : List ℚ → Data → ModelOut :=
  fun pars _ => .tup pars [([1], [2])]

/-- Concrete bare-array model evaluator (witnesses for C9 and C10): the flux
array is the parameter vector itself. -/
def modelBareW : List ℚ → Data → ModelOut :=
  fun pars _ => .bare pars

/-- The flux function computed by `modelBareW` (witness for C9). -/
def fluxFunW : List ℚ → List ℚ := fun p => p

/-- A fixed stand-in for the external standard normal CDF (witnesses): a
strictly increasing function with value 1/2 at 0 whose values at the witness
arguments lie in `[0,1)`. -/
def cdfW : ℚ → ℚ := fun x => 1 / 2 + x / 8

/-- Concrete ensemble of model curves over a single-point energy grid
(witnesses for C7 and C8): four walkers with values 1, 4, 2, 3. -/
def modelW4 : List (List ℚ) := [[1], [4], [2], [3]]

/-- Concrete energy grid for the band witnesses. -/
def modelxW : List ℚ := [10]

/-- The nearest-rank median band of `modelW4` over `modelxW` (witness for
C7). -/
def medianBandW : List ℚ :=
  (List.range modelxW.length).map (fun i => specMedianNR (columnAt modelW4 i))

/-- Concrete flattened chain (witness for C9): two samples of a 2-parameter
vector, per-parameter means `[2, 3]`. -/
def flatchainW : List (List ℚ) := [[1, 2], [3, 4]]

/-- Concrete blob history (witness for C9): one step, one walker, one
`(ene, flux)` blob slot. -/
def blobsW : List (List (List (List ℚ × List ℚ))) :=
  [[[([1, 2], [2, 4])]]]

/-- Concrete initial guess array (witness for C10). -/
def p0W : List ℚ := [2, 3, 10, 1]

/-! Helper lemmas. -/

/-- The arithmetic selection `loerr*lo + hierr*hi` of the code equals the
if-then-else selection of the amended claim: the hi column when the difference
is positive, the lo column otherwise. -/
theorem sigmaSel_eq_amended : sigmaSel = specSigmaAmended := by
  funext diff e
  unfold sigmaSel specSigmaAmended
  by_cases h : diff > 0 <;> simp [h]

/-- The code's Gaussian part coincides with the claim-style sum using the
amended column selection. -/
theorem totalGauss_eq_specNonULSum (model : List ℚ) (d : Data) :
    totalGaussLogprob model d = specNonULSum specSigmaAmended model d := by
  unfold totalGaussLogprob specNonULSum
  rw [sigmaSel_eq_amended]
  cases d.dflux <;> rfl

/-- A NumPy sum of finite IEEE values is the finite value of the rational
sum. -/
theorem FVal.sumF_map_fin (l : List ℚ) : FVal.sumF (l.map FVal.fin) = .fin l.sum := by
  suffices H : ∀ (l : List ℚ) (a : ℚ),
      (l.map FVal.fin).foldl FVal.add (.fin a) = .fin (a + l.sum) by
    simpa using H l 0
  intro l
  induction l with
  | nil =>
      intro a
      simp
  | cons x xs ih =>
      intro a
      simp only [List.map_cons, List.foldl, FVal.add, List.sum_cons, ih]
      ring_nf

/-- One Gaussian likelihood term at IEEE level is the finite value of the
rational term whenever its sigma is nonzero. -/
theorem FVal.gauss_term_eq_fin (a s : ℚ) (hs : s ≠ 0) :
    FVal.div (FVal.neg (FVal.mul (.fin a) (.fin a)))
      (FVal.mul (.fin 2) (FVal.mul (.fin s) (.fin s))) =
      .fin (-a ^ 2 / (2 * s ^ 2)) := by
  have h2 : (2 : ℚ) * (s * s) ≠ 0 := mul_ne_zero two_ne_zero (mul_ne_zero hs hs)
  simp only [FVal.mul, FVal.neg, FVal.div, h2, if_neg, if_false]
  congr 1
  ring

/-- Under the finiteness side condition, the IEEE-level likelihood is exactly
the finite value of the rational-level `lnprobmodel`: the two embeddings of
`lnprobmodel` agree wherever no `inf`/`nan` arises. -/
theorem lnprobmodelF_eq_fin (lg : ℚ → ℚ) (model : List ℚ) (d : Data)
    (h : finiteOKb model d = true) :
    lnprobmodelF lg model d = .fin (lnprobmodel lg model d) := by
  unfold finiteOKb at h
  rw [Bool.and_eq_true] at h
  obtain ⟨hσ, hcl⟩ := h
  have hulterm : 0 < ulCount d →
      FVal.mul (.fin (violatedULs model d)) (FVal.flog lg (.fin (1 - d.cl))) =
        .fin ((violatedULs model d : ℚ) * lg (1 - d.cl)) := by
    intro hul
    have hcl' : d.cl < 1 := by
      rcases Bool.or_eq_true _ _ |>.mp hcl with h0 | h1
      · exact absurd (of_decide_eq_true h0) (by omega)
      · exact of_decide_eq_true h1
    have hpos : (0 : ℚ) < 1 - d.cl := by linarith
    simp [FVal.flog, FVal.mul, hpos]
  cases hd : d.dflux with
  | asym v =>
      rw [hd] at hσ
      have hmap : ((nonULdiffs model d).zip (boolMask (d.ul.map not) v)).map
          (fun (q : ℚ × (ℚ × ℚ)) =>
            FVal.div (FVal.neg (FVal.mul (.fin q.1) (.fin q.1)))
              (FVal.mul (.fin 2)
                (FVal.mul (.fin (sigmaSel q.1 q.2)) (.fin (sigmaSel q.1 q.2))))) =
          (((nonULdiffs model d).zip (boolMask (d.ul.map not) v)).map
            (fun (q : ℚ × (ℚ × ℚ)) =>
              -q.1 ^ 2 / (2 * (sigmaSel q.1 q.2) ^ 2))).map FVal.fin := by
        rw [List.map_map]
        apply List.map_congr_left
        intro q hq
        exact FVal.gauss_term_eq_fin q.1 (sigmaSel q.1 q.2)
          (of_decide_eq_true (List.all_eq_true.mp hσ q hq))
      simp only [lnprobmodelF, lnprobmodel, totalGaussLogprob, hd, hmap,
        FVal.sumF_map_fin]
      by_cases hul : 0 < ulCount d
      · simp only [if_pos hul, hulterm hul, FVal.add]
      · simp only [if_neg hul]
  | sym v =>
      rw [hd] at hσ
      have hmap : ((nonULdiffs model d).zip (boolMask (d.ul.map not) v)).map
          (fun (q : ℚ × ℚ) =>
            FVal.div (FVal.neg (FVal.mul (.fin q.1) (.fin q.1)))
              (FVal.mul (.fin 2) (FVal.mul (.fin q.2) (.fin q.2)))) =
          (((nonULdiffs model d).zip (boolMask (d.ul.map not) v)).map
            (fun (q : ℚ × ℚ) => -q.1 ^ 2 / (2 * q.2 ^ 2))).map FVal.fin := by
        rw [List.map_map]
        apply List.map_congr_left
        intro q hq
        exact FVal.gauss_term_eq_fin q.1 q.2
          (of_decide_eq_true (List.all_eq_true.mp hσ q hq))
      simp only [lnprobmodelF, lnprobmodel, totalGaussLogprob, hd, hmap,
        FVal.sumF_map_fin]
      by_cases hul : 0 < ulCount d
      · simp only [if_pos hul, hulterm hul, FVal.add]
      · simp only [if_neg hul]

/-- Python's truncating `int()` of half a count is the count's integer half. -/
theorem toNat_floor_half (n : ℕ) : (⌊(1 / 2 : ℚ) * (n : ℚ)⌋).toNat = n / 2 := by
  have h : ⌊(1 / 2 : ℚ) * (n : ℚ)⌋ = (n : ℤ) / 2 := by
    set k : ℤ := (n : ℤ) / 2 with hk
    have h1 : 2 * k ≤ (n : ℤ) := by omega
    have h2 : (n : ℤ) < 2 * k + 2 := by omega
    rw [Int.floor_eq_iff]
    have h1q : 2 * (k : ℚ) ≤ (n : ℚ) := by exact_mod_cast h1
    have h2q : (n : ℚ) < 2 * (k : ℚ) + 2 := by exact_mod_cast h2
    constructor
    · linarith
    · linarith
  rw [h]
  omega

/-- The nearest-rank quantile index is monotone in the quantile fraction. -/
theorem quantIdx_mono (f1 f2 : ℚ) (n : ℕ) (h : f1 ≤ f2) :
    (⌊f1 * (n : ℚ)⌋).toNat ≤ (⌊f2 * (n : ℚ)⌋).toNat := by
  have hf : ⌊f1 * (n : ℚ)⌋ ≤ ⌊f2 * (n : ℚ)⌋ :=
    Int.floor_mono (mul_le_mul_of_nonneg_right h (by positivity))
  omega

/-- For a fraction below 1, the nearest-rank index is a valid index. -/
theorem quantIdx_lt (f : ℚ) (n : ℕ) (h1 : f < 1) (hn : 0 < n) :
    (⌊f * (n : ℚ)⌋).toNat < n := by
  have hn' : (0 : ℚ) < (n : ℚ) := by exact_mod_cast hn
  have hq : f * (n : ℚ) < (n : ℚ) := by
    calc f * (n : ℚ) < 1 * (n : ℚ) := mul_lt_mul_of_pos_right h1 hn'
    _ = (n : ℚ) := one_mul _
  have hfl : ⌊f * (n : ℚ)⌋ < (n : ℤ) := Int.floor_lt.mpr (by exact_mod_cast hq)
  omega

/-- Entries of a sorted list are monotone in the index. -/
theorem sortQ_getD_le (l : List ℚ) (a b : ℕ) (hab : a ≤ b) (hb : b < l.length) :
    (sortQ l).getD a 0 ≤ (sortQ l).getD b 0 := by
  have hlen : (sortQ l).length = l.length := List.length_insertionSort _ _
  have hs : List.Sorted (fun x y : ℚ => x ≤ y) (sortQ l) := List.sorted_insertionSort _ _
  have ha' : a < (sortQ l).length := by omega
  have hb' : b < (sortQ l).length := by omega
  rw [List.getD_eq_get _ _ ha', List.getD_eq_get _ _ hb']
  exact hs.rel_get_of_le (show (⟨a, ha'⟩ : Fin (sortQ l).length) ≤ ⟨b, hb'⟩ from hab)

/-- Indexing a map over `List.range` inside its length. -/
theorem rangeMap_getD (n : ℕ) (f : ℕ → ℚ) (i : ℕ) (hi : i < n) :
    ((List.range n).map f).getD i 0 = f i := by
  rw [List.getD_eq_getElem _ _ (by simpa using hi)]
  simp

/-- Indexing a map over `List.range` outside its length gives the default. -/
theorem rangeMap_getD_default (n : ℕ) (f : ℕ → ℚ) (i : ℕ) (hi : ¬i < n) :
    ((List.range n).map f).getD i 0 = 0 := by
  apply List.getD_eq_default
  simpa using Nat.le_of_not_lt hi

end EmceeSpecfit

namespace EmceeSpecfit

/-! Claim theorems. -/

/-- C1 counterexample: for a single non-upper-limit point with `model = 2`,
`flux = 1` (so `difference = 1 > 0`) and asymmetric errors `(lo, hi) = (1, 2)`,
the code uses the upper-error column (giving `-1/8`), not the lower-error
column the claim prescribes for `difference > 0` (which would give `-1/2`). -/
theorem lnprobmodel_claim_direction_cx :
    lnprobmodel logW [2] dataC1 = -(1 / 8) ∧
    specNonULSum specSigmaClaim [2] dataC1 = -(1 / 2) ∧
    lnprobmodel logW [2] dataC1 ≠ specNonULSum specSigmaClaim [2] dataC1 := by
  norm_num [lnprobmodel, totalGaussLogprob, specNonULSum, nonULdiffs, boolMask,
    ulCount, violatedULs, sigmaSel, specSigmaClaim, dataC1, logW]

/-- C1 (amended): the likelihood's contribution from non-upper-limit points is
the sum over those points of `-difference^2/(2*sigma^2)` where, for 2-column
uncertainties, sigma is the upper-error column when `difference > 0` and the
lower-error column when `difference ≤ 0` (and the symmetric scalar in the
1-column case); the upper-limit term is exactly the remaining summand. -/
theorem lnprobmodel_nonUL_contribution (log : ℚ → ℚ) (model : List ℚ) (d : Data) :
    lnprobmodel log model d =
      specNonULSum specSigmaAmended model d +
        (if 0 < ulCount d then (violatedULs model d : ℚ) * log (1 - d.cl) else 0) := by
  unfold lnprobmodel
  rw [totalGauss_eq_specNonULSum]
  by_cases h : 0 < ulCount d <;> simp [h]

/-- C2: the upper-limit contribution is the number of violated upper limits
times `log(1 - cl)` whenever upper-limit points exist, and with zero
upper-limit points the term is omitted and the result is invariant to the
value of the confidence level field. -/
theorem lnprobmodel_ul_term (log : ℚ → ℚ) (model : List ℚ) (d : Data) :
    (0 < ulCount d →
      lnprobmodel log model d =
        totalGaussLogprob model d + (violatedULs model d : ℚ) * log (1 - d.cl)) ∧
    (ulCount d = 0 →
      ∀ c : ℚ, lnprobmodel log model { d with cl := c } = lnprobmodel log model d) := by
  constructor
  · intro h
    simp [lnprobmodel, h]
  · intro h c
    have hceq : ulCount { d with cl := c } = ulCount d := rfl
    simp only [lnprobmodel, hceq, h]
    rfl

/-- Adding two finite IEEE values yields a finite value. -/
theorem FVal.isFin_add {a b : FVal} (ha : a.isFin = true) (hb : b.isFin = true) :
    (FVal.add a b).isFin = true := by
  cases a <;> cases b <;> simp_all [FVal.add, FVal.isFin]

/-- A NumPy sum of finite IEEE values is finite. -/
theorem FVal.isFin_sumF {l : List FVal} (h : ∀ x ∈ l, x.isFin = true) :
    (FVal.sumF l).isFin = true := by
  suffices H : ∀ (l : List FVal) (acc : FVal), acc.isFin = true →
      (∀ x ∈ l, x.isFin = true) → (l.foldl FVal.add acc).isFin = true by
    exact H l (.fin 0) rfl h
  intro l
  induction l with
  | nil =>
      intro acc hacc _
      simpa using hacc
  | cons x xs ih =>
      intro acc hacc hall
      simp only [List.foldl]
      exact ih _ (FVal.isFin_add hacc (hall x (by simp))) (fun y hy => hall y (by simp [hy]))

/-- One Gaussian likelihood term is finite whenever its sigma is nonzero. -/
theorem FVal.isFin_gauss_term (a s : ℚ) (hs : s ≠ 0) :
    (FVal.div (FVal.neg (FVal.mul (.fin a) (.fin a)))
      (FVal.mul (.fin 2) (FVal.mul (.fin s) (.fin s)))).isFin = true := by
  have h2 : (2 : ℚ) * (s * s) ≠ 0 := mul_ne_zero two_ne_zero (mul_ne_zero hs hs)
  simp [FVal.mul, FVal.neg, FVal.div, FVal.isFin, h2]

/-- C3 counterexample: two fully finite inputs on which the likelihood is
`-inf` at IEEE level — a non-upper-limit point whose (finite) uncertainty is
0, and a violated upper limit with the (finite) confidence level 1. -/
theorem lnprobmodelF_ninf_cx :
    lnprobmodelF logW [2] dataC3div = FVal.ninf ∧
    lnprobmodelF logW [2] dataC3cl = FVal.ninf := by
  constructor <;>
    norm_num [lnprobmodelF, nonULdiffs, boolMask, ulCount, violatedULs,
      dataC3div, dataC3cl, FVal.sumF, FVal.add, FVal.mul, FVal.div, FVal.neg,
      FVal.flog, logW, List.count_cons]

/-- C3 (amended): for finite inputs the likelihood is finite at IEEE level
provided every per-point sigma used by a non-upper-limit point is nonzero
and, when upper-limit points are present, the confidence level is below 1. -/
theorem lnprobmodelF_finite (lg : ℚ → ℚ) (model : List ℚ) (d : Data)
    (h : finiteOKb model d = true) : (lnprobmodelF lg model d).isFin = true := by
  unfold finiteOKb at h
  rw [Bool.and_eq_true] at h
  obtain ⟨hσ, hcl⟩ := h
  have hulterm : 0 < ulCount d →
      (FVal.mul (.fin (violatedULs model d))
        (FVal.flog lg (.fin (1 - d.cl)))).isFin = true := by
    intro hul
    have hcl' : d.cl < 1 := by
      rcases Bool.or_eq_true _ _ |>.mp hcl with h0 | h1
      · exact absurd (of_decide_eq_true h0) (by omega)
      · exact of_decide_eq_true h1
    have hpos : (0 : ℚ) < 1 - d.cl := by linarith
    simp [FVal.flog, FVal.mul, FVal.isFin, hpos]
  cases hd : d.dflux with
  | asym v =>
      rw [hd] at hσ
      have hterm : ∀ x ∈ ((nonULdiffs model d).zip (boolMask (d.ul.map not) v)).map
          (fun (q : ℚ × (ℚ × ℚ)) =>
            FVal.div (FVal.neg (FVal.mul (.fin q.1) (.fin q.1)))
              (FVal.mul (.fin 2)
                (FVal.mul (.fin (sigmaSel q.1 q.2)) (.fin (sigmaSel q.1 q.2))))),
          x.isFin = true := by
        intro x hx
        rw [List.mem_map] at hx
        obtain ⟨q, hq, rfl⟩ := hx
        exact FVal.isFin_gauss_term q.1 (sigmaSel q.1 q.2)
          (of_decide_eq_true (List.all_eq_true.mp hσ q hq))
      simp only [lnprobmodelF, hd]
      by_cases hul : 0 < ulCount d
      · simp only [if_pos hul]
        exact FVal.isFin_add (FVal.isFin_sumF hterm) (hulterm hul)
      · simp only [if_neg hul]
        exact FVal.isFin_sumF hterm
  | sym v =>
      rw [hd] at hσ
      have hterm : ∀ x ∈ ((nonULdiffs model d).zip (boolMask (d.ul.map not) v)).map
          (fun (q : ℚ × ℚ) =>
            FVal.div (FVal.neg (FVal.mul (.fin q.1) (.fin q.1)))
              (FVal.mul (.fin 2) (FVal.mul (.fin q.2) (.fin q.2)))),
          x.isFin = true := by
        intro x hx
        rw [List.mem_map] at hx
        obtain ⟨q, hq, rfl⟩ := hx
        exact FVal.isFin_gauss_term q.1 q.2
          (of_decide_eq_true (List.all_eq_true.mp hσ q hq))
      simp only [lnprobmodelF, hd]
      by_cases hul : 0 < ulCount d
      · simp only [if_pos hul]
        exact FVal.isFin_add (FVal.isFin_sumF hterm) (hulterm hul)
      · simp only [if_neg hul]
        exact FVal.isFin_sumF hterm

/-- C3 witness: a concrete observation set with one Gaussian point (nonzero
sigma) and one upper-limit point (confidence level 9/10), on which the side
condition holds and the likelihood is finite. -/
theorem lnprobmodelF_finite_witness :
    finiteOKb [1, 2] dataC3ok = true ∧ (lnprobmodelF logW [1, 2] dataC3ok).isFin = true :=
  ⟨by norm_num [finiteOKb, nonULdiffs, boolMask, ulCount, dataC3ok, List.count_cons],
   lnprobmodelF_finite logW [1, 2] dataC3ok
     (by norm_num [finiteOKb, nonULdiffs, boolMask, ulCount, dataC3ok, List.count_cons])⟩

/-- C4: the posterior function returns the likelihood-plus-prior total
together with the normalized blob — the synthesized `(ene, flux)` singleton
for a bare model output, and exactly the unchanged extra payload for a tuple
output. -/
theorem lnprob_components (log : ℚ → ℚ) (pars : List ℚ) (d : Data)
    (mf : List ℚ → Data → ModelOut) (pf : List ℚ → ℚ)
    (flux : List ℚ) (extra : List (List ℚ × List ℚ)) :
    (mf pars d = ModelOut.bare flux →
      lnprob log pars d mf pf = (lnprobmodel log flux d + pf pars, [(d.ene, flux)])) ∧
    (mf pars d = ModelOut.tup flux extra →
      lnprob log pars d mf pf = (lnprobmodel log flux d + pf pars, extra)) := by
  constructor <;> intro h <;> simp [lnprob, h]

/-- C4 witness: a concrete tuple-returning model evaluator whose extra payload
is threaded through unchanged as the blob. -/
theorem lnprob_components_witness :
    lnprob logW [3] dataC2 modelTupW flatprior =
      (lnprobmodel logW [3] dataC2 + flatprior [3], [([1], [2])]) :=
  (lnprob_components logW [3] dataC2 modelTupW flatprior [3] [([1], [2])]).2 rfl

/-- C5: at `value=1, mean=0, sigma=2`, the difference of two `normal_prior`
log-probabilities is `-1/4` (the code divides by `2*sigma`), not the `-1/8`
required by the claimed quadratic penalty `-(1/2)*(value-mean)^2/sigma^2`
(whose value-independent constant cancels in the difference). -/
theorem normal_prior_divergence :
    normal_prior 1 0 2 - normal_prior 0 0 2 = -(1 / 4) ∧
    normal_prior 1 0 2 - normal_prior 0 0 2 ≠
      -(1 / 2) * (1 - 0) ^ 2 / 2 ^ 2 - -(1 / 2) * (0 - 0) ^ 2 / 2 ^ 2 := by
  norm_num [normal_prior, pi_f64]

/-- C6: invoked without a data set, the sampler orchestrator fails
immediately with a configuration error; no likelihood evaluation is traced
and no walker state is produced. -/
theorem get_sampler_missing_data (log : ℚ → ℚ) (nwalkers nburn : ℕ) (guess : Bool)
    (p0 : List ℚ) (mf : List ℚ → Data → ModelOut) (pf : List ℚ → ℚ) (threads : ℕ) :
    get_sampler log nwalkers nburn guess p0 none mf pf threads = (.error (), []) :=
  rfl

/-- C7: at confidence level 0 (in sigma units), both quantile bands coincide,
at every energy-grid point, with the nearest-rank median of that point's
values across the ensemble (using that the standard normal CDF is 1/2 at 0). -/
theorem bandPair_conf_zero (modelx : List ℚ) (model : List (List ℚ)) (cdf : ℚ → ℚ)
    (hcdf : cdf 0 = 1 / 2) (hm : 0 < model.length) :
    bandPair modelx model cdf 0 =
      ((List.range modelx.length).map (fun i => specMedianNR (columnAt model i)),
       (List.range modelx.length).map (fun i => specMedianNR (columnAt model i))) := by
  have hpt : ∀ i : ℕ,
      (sortQ (columnAt model i)).getD (model.length / 2) 0 =
        specMedianNR (columnAt model i) := by
    intro i
    unfold specMedianNR columnAt
    rw [List.length_map]
  simp only [bandPair, neg_zero, hcdf, toNat_floor_half]
  simp only [Prod.mk.injEq]
  constructor <;> exact List.map_congr_left (fun i _ => hpt i)

/-- C7 witness: a four-walker ensemble over a one-point grid; both bands at
confidence 0 equal the nearest-rank median band. -/
theorem bandPair_conf_zero_witness :
    bandPair modelxW modelW4 cdfW 0 = (medianBandW, medianBandW) :=
  bandPair_conf_zero modelxW modelW4 cdfW (by norm_num [cdfW]) (by norm_num [modelW4])

/-- C8: for two confidence levels whose CDF values are ordered consistently
with a monotone CDF and lie in `[0, 1)`, the band of the larger level contains
the band of the smaller one at every energy-grid point. -/
theorem bandPair_nested (modelx : List ℚ) (model : List (List ℚ)) (cdf : ℚ → ℚ)
    (c1 c2 : ℚ) (h1 : cdf (-c2) ≤ cdf (-c1)) (h2 : cdf c1 ≤ cdf c2)
    (h3 : 0 ≤ cdf (-c2)) (h4 : 0 ≤ cdf c1) (h5 : cdf (-c1) < 1) (h6 : cdf c2 < 1)
    (hm : 0 < model.length) (i : ℕ) :
    (bandPair modelx model cdf c2).1.getD i 0 ≤ (bandPair modelx model cdf c1).1.getD i 0 ∧
    (bandPair modelx model cdf c1).2.getD i 0 ≤ (bandPair modelx model cdf c2).2.getD i 0 := by
  simp only [bandPair]
  by_cases hi : i < modelx.length
  · rw [rangeMap_getD _ _ _ hi, rangeMap_getD _ _ _ hi, rangeMap_getD _ _ _ hi,
      rangeMap_getD _ _ _ hi]
    have hcol : ∀ j : ℕ, (columnAt model j).length = model.length :=
      fun j => List.length_map _ _
    constructor
    · apply sortQ_getD_le
      · exact quantIdx_mono _ _ _ h1
      · rw [hcol]
        exact quantIdx_lt _ _ h5 hm
    · apply sortQ_getD_le
      · exact quantIdx_mono _ _ _ h2
      · rw [hcol]
        exact quantIdx_lt _ _ h6 hm
  · rw [rangeMap_getD_default _ _ _ hi, rangeMap_getD_default _ _ _ hi,
      rangeMap_getD_default _ _ _ hi, rangeMap_getD_default _ _ _ hi]
    exact ⟨le_refl 0, le_refl 0⟩

/-- C8 witness: confidence levels 1 and 2 with a concrete increasing CDF
stand-in on the four-walker ensemble, at grid point 0. -/
theorem bandPair_nested_witness :
    (bandPair modelxW modelW4 cdfW 2).1.getD 0 0 ≤ (bandPair modelxW modelW4 cdfW 1).1.getD 0 0 ∧
    (bandPair modelxW modelW4 cdfW 1).2.getD 0 0 ≤ (bandPair modelxW modelW4 cdfW 2).2.getD 0 0 :=
  bandPair_nested modelxW modelW4 cdfW 1 2 (by norm_num [cdfW]) (by norm_num [cdfW])
    (by norm_num [cdfW]) (by norm_num [cdfW]) (by norm_num [cdfW]) (by norm_num [cdfW])
    (by norm_num [modelW4]) 0

/-- C9: the MAP model curve returned by `calc_fit_CI` is exactly the model
evaluator's flux array at the MAP parameter vector (the per-parameter mean of
the flattened chain), for any model evaluator returning a bare flux array. -/
theorem calc_fit_CI_MAP_curve (log : ℚ → ℚ) (blobs : List (List (List (List ℚ × List ℚ))))
    (flatchain : List (List ℚ)) (d : Data) (mf : List ℚ → Data → ModelOut)
    (pf : List ℚ → ℚ) (cdf : ℚ → ℚ) (confs : List ℚ) (last_step : Bool)
    (f : List ℚ → List ℚ) (hf : ∀ p, mf p d = ModelOut.bare (f p)) :
    (calc_fit_CI log blobs flatchain d mf pf cdf 0 confs last_step).2.2 =
      f (MAPpars flatchain) := by
  simp [calc_fit_CI, lnprob, hf (MAPpars flatchain)]

/-- C9 witness: a bare model evaluator returning the parameter vector itself;
the returned MAP curve is that function of the chain's column means. -/
theorem calc_fit_CI_MAP_curve_witness :
    (calc_fit_CI logW blobsW flatchainW dataC2 modelBareW flatprior cdfW 0 [3, 1] true).2.2 =
      fluxFunW (MAPpars flatchainW) :=
  calc_fit_CI_MAP_curve logW blobsW flatchainW dataC2 modelBareW flatprior cdfW [3, 1] true
    fluxFunW (fun _ => rfl)

/-- C10: with auto-scaling enabled and a data set supplied, `get_sampler`
evaluates the posterior once at the guess and updates the caller's guess array
in place: entry 1 is multiplied by the ratio of the data's integrated flux to
the model curve's integrated flux (trapezoidal rule), all other entries are
unchanged; the `.ok` payload is the caller-visible array after the call, so a
subsequent call starts from the rescaled array. -/
theorem get_sampler_scales_guess (log : ℚ → ℚ) (nwalkers nburn : ℕ) (p0 : List ℚ)
    (d : Data) (mf : List ℚ → Data → ModelOut) (pf : List ℚ → ℚ) (threads : ℕ)
    (flux : List ℚ) (hb : mf p0 d = ModelOut.bare flux) :
    get_sampler log nwalkers nburn true p0 (some d) mf pf threads =
      (.ok (p0.set 1 (p0.getD 1 0 * (trapz d.flux d.ene / trapz flux d.ene))), [p0]) := by
  simp [get_sampler, lnprob, hb]

/-- C10 witness: a concrete four-entry guess and data set; the returned array
is the guess with entry 1 rescaled by the integrated-flux ratio. -/
theorem get_sampler_scales_guess_witness :
    get_sampler logW 600 30 true p0W (some dataC2) modelBareW flatprior 8 =
      (.ok (p0W.set 1
        (p0W.getD 1 0 * (trapz dataC2.flux dataC2.ene / trapz p0W dataC2.ene))), [p0W]) :=
  get_sampler_scales_guess logW 600 30 p0W dataC2 modelBareW flatprior 8 p0W rfl

/-- C2 witness: a concrete observation set with zero upper-limit points, whose
likelihood is unchanged when the confidence level is replaced by 1/3. -/
theorem lnprobmodel_ul_term_witness :
    ulCount dataC2 = 0 ∧
    lnprobmodel logW [1, 2] { dataC2 with cl := 1 / 3 } = lnprobmodel logW [1, 2] dataC2 :=
  ⟨by simp [ulCount, dataC2], (lnprobmodel_ul_term logW [1, 2] dataC2).2 (by simp [ulCount, dataC2]) (1 / 3)⟩

end EmceeSpecfit
